import Mathlib

/-!
Shallow embedding of the proof-evaluation and verification pipeline of the
chainpoint javascript client: the proof normalizer, branch flattener, BTC
branch extractor (src/lib/utils/proofs.js), the evaluator (src/lib/evaluate.js)
and the verifier (src/lib/verify.js).  Parsed proofs are modelled as the tree
shape produced by the external chainpoint-parse collaborator; machine-level
javascript values (possibly-absent fields, `undefined`) are modelled with
`Option`.
-/

deriving instance DecidableEq for Except

namespace Chainpoint

/-- A single anchor inside a proof branch, as produced by the external
chainpoint-parse collaborator and consumed by `flattenProofBranches`
(src/lib/utils/proofs.js lines 130-137). -/
structure Anchor where
  type : String
  anchor_id : String
  expected_value : String
  uris : List String
deriving DecidableEq, Repr

/-- A node of the parsed proof's merkle-path tree.  Every field of a
javascript object can be absent (`undefined`), hence the `Option`s; in
particular `anchors` and `branches` may be missing, which the flattening
code treats specially (lodash `forEach` over `undefined` is a no-op, and
`if (proofBranch.branches)` checks field truthiness). -/
inductive Branch where
  | mk (label : Option String) (anchors : Option (List Anchor))
      (branches : Option (List Branch)) (rawTx : Option String)

/-- The `label` field of a branch. -/
def Branch.label : Branch → Option String
  | .mk l _ _ _ => l

/-- The `anchors` field of a branch. -/
def Branch.anchors : Branch → Option (List Anchor)
  | .mk _ a _ _ => a

/-- The `branches` field of a branch. -/
def Branch.branches : Branch → Option (List Branch)
  | .mk _ _ b _ => b

/-- The `rawTx` field of a branch. -/
def Branch.rawTx : Branch → Option String
  | .mk _ _ _ r => r

/-- A parsed proof, the canonical decoded form produced by the external
parser: identity fields plus the tree of branches (field names follow the
snake_case keys read by `flattenProofs`, src/lib/utils/proofs.js 102-106). -/
structure Proof where
  hash : String
  hash_id_node : String
  hash_id_core : String
  hash_submitted_node_at : String
  hash_submitted_core_at : String
  branches : Option (List Branch)

/-- The record built per anchor by `flattenProofBranches`
(src/lib/utils/proofs.js lines 132-138). -/
structure BranchAnchor where
  branch : Option String
  uri : Option String
  type : String
  anchor_id : String
  expected_value : String
deriving DecidableEq, Repr

/-- The flattened per-anchor verification record built by `flattenProofs`
(src/lib/utils/proofs.js lines 101-112). -/
structure FlatProofAnchor where
  hash : String
  hash_id_node : String
  hash_id_core : String
  hash_submitted_node_at : String
  hash_submitted_core_at : String
  branch : Option String
  uri : Option String
  type : String
  anchor_id : String
  expected_value : String
deriving DecidableEq, Repr

/-- Javascript `s || undefined` applied to a possibly absent string: an
empty string is falsy and is replaced by `undefined`. -/
def jsTruthyString : Option String → Option String
  | some s => if s = "" then none else some s
  | none => none

/-- The record pushed for one anchor of one branch:
`{ branch: proofBranch.label || undefined, uri: anchor.uris[0], type, anchor_id,
expected_value }` (src/lib/utils/proofs.js lines 132-137).  `anchor.uris[0]`
is `undefined` when `uris` is empty, hence `List.head?`. -/
def branchAnchorRecord (label : Option String) (a : Anchor) : BranchAnchor :=
  { branch := jsTruthyString label
    uri := a.uris.head?
    type := a.type
    anchor_id := a.anchor_id
    expected_value := a.expected_value }

/-- `flattenProofBranches` (src/lib/utils/proofs.js lines 126-145): for each
branch in order, push one record per anchor (lodash `forEach` over a missing
`anchors` field iterates nothing), then, when the `branches` field is
present, append the recursive flattening of the sub-branches. -/
def flattenProofBranches : List Branch → List BranchAnchor
  | [] => []
  | .mk label anchors none _ :: rest =>
      ((anchors.getD []).map (branchAnchorRecord label)) ++ flattenProofBranches rest
  | .mk label anchors (some bs) _ :: rest =>
      ((anchors.getD []).map (branchAnchorRecord label)) ++
        (flattenProofBranches bs ++ flattenProofBranches rest)

/-- Number of anchors listed on the branches of a list, summed over the whole
tree reachable through present `branches` fields. -/
def branchListAnchorCount : List Branch → Nat
  | [] => 0
  | .mk _ anchors none _ :: rest =>
      (anchors.getD []).length + branchListAnchorCount rest
  | .mk _ anchors (some bs) _ :: rest =>
      (anchors.getD []).length + (branchListAnchorCount bs + branchListAnchorCount rest)

/-- Weight of a branch list, counting every reachable branch node; used only
as the termination measure of the work-list traversal below. -/
def branchesWeight : List Branch → Nat
  | [] => 0
  | .mk _ _ none _ :: rest => 1 + branchesWeight rest
  | .mk _ _ (some bs) _ :: rest => 1 + (branchesWeight bs + branchesWeight rest)

/-- Specification-side pre-order traversal, written with an explicit
work-list instead of the source's recursion: the head branch's own anchors
are emitted first, then its sub-branches are pushed onto the work-list in
front of the remaining sibling branches. -/
def preorderWorklist : List Branch → List BranchAnchor
  | [] => []
  | b :: rest =>
      ((b.anchors.getD []).map (branchAnchorRecord b.label)) ++
        preorderWorklist (b.branches.getD [] ++ rest)
termination_by l => branchesWeight l
decreasing_by
  have happ : ∀ l₁ l₂ : List Branch,
      branchesWeight (l₁ ++ l₂) = branchesWeight l₁ + branchesWeight l₂ := by
    intro l₁
    induction l₁ using branchesWeight.induct with
    | case1 => intro l₂; simp [branchesWeight]
    | case2 label anchors rtx rest ih =>
        intro l₂
        simp only [List.cons_append, branchesWeight, ih]
        omega
    | case3 label anchors bs rtx rest _ih₁ ih₂ =>
        intro l₂
        simp only [List.cons_append, branchesWeight, ih₂]
        omega
  rcases b with ⟨label, anchors, bb, rtx⟩
  cases bb with
  | none => simp [Branch.branches, branchesWeight]
  | some bs =>
      simp only [Branch.branches, Option.getD_some, happ, branchesWeight]
      omega

/-- Record emitted per proof by the BTC-branch extractor. -/
structure BtcRec where
  hash_id_node : String
  raw_btc_tx : Option String := none
  expected_value : Option String := none
  anchor_id : Option String := none
deriving DecidableEq, Repr

/-- Fail-fast effectful map, the shape of a javascript loop whose body can
throw: the first thrown error aborts the whole call. -/
def mapExcept {α β : Type} (f : α → Except String β) : List α → Except String (List β)
  | [] => .ok []
  | x :: xs =>
      match f x with
      | .error e => .error e
      | .ok y =>
          match mapExcept f xs with
          | .error e => .error e
          | .ok ys => .ok (y :: ys)

/-- Fail-fast effectful fold, the shape of a javascript loop that mutates an
accumulator object and can throw. -/
def foldExcept {α β : Type} (f : β → α → Except String β) (acc : β) :
    List α → Except String β
  | [] => .ok acc
  | x :: xs =>
      match f acc x with
      | .error e => .error e
      | .ok acc2 => foldExcept f acc2 xs

/-- One step of the loop over a proof's top-level branches in
`flattenBtcBranches` (src/lib/utils/proofs.js lines 160-174).  When the
`branches` field of a top-level branch is present (a javascript array is
truthy even when empty), the code dereferences the result of `find` without
any guard: a missing branch labeled btc_anchor_branch, a missing `anchors`
field on it, or a missing btc-typed anchor each throw a TypeError. -/
def btcBranchStep (acc : BtcRec) (b : Branch) : Except String BtcRec :=
  match b.branches with
  | none => .ok acc
  | some subBranches =>
      match subBranches.find? (fun e => e.label == some "btc_anchor_branch") with
      | none => .error "TypeError: cannot read rawTx of undefined"
      | some btcBranch =>
          let acc2 : BtcRec := { acc with raw_btc_tx := btcBranch.rawTx }
          match btcBranch.anchors with
          | none => .error "TypeError: cannot read find of undefined"
          | some ancs =>
              match ancs.find? (fun a => a.type == "btc") with
              | none => .error "TypeError: cannot read expected_value of undefined"
              | some anchor =>
                  .ok { acc2 with
                        expected_value := some anchor.expected_value
                        anchor_id := some anchor.anchor_id }

/-- Extraction of one proof's record by `flattenBtcBranches`: the record
starts with only `hash_id_node` and the loop over present top-level branches
may fill in (or crash on) the btc fields. -/
def flattenBtcBranchesOne (p : Proof) : Except String BtcRec :=
  match p.branches with
  | none => .ok { hash_id_node := p.hash_id_node }
  | some bs => foldExcept btcBranchStep { hash_id_node := p.hash_id_node } bs

/-- Function flattenBtcBranches (src/lib/utils/proofs.js lines 152-181):
one record per proof, each built by `flattenBtcBranchesOne`. -/
def flattenBtcBranches (proofs : List Proof) : Except String (List BtcRec) :=
  mapExcept flattenBtcBranchesOne proofs

/-- Possible value of the `proof` property of a wrapper object handed to
`normalizeProofs`: a string, or some non-string value. -/
inductive ProofFieldVal where
  | strVal (s : String)
  | nonStrVal
deriving DecidableEq, Repr

/-- Relevant shape of a plain javascript object passed to `normalizeProofs`:
its `proof` property and its `type` property, either possibly absent. -/
structure JsProofObj where
  proofField : Option ProofFieldVal
  typeField : Option String
deriving DecidableEq, Repr

/-- An element of the array passed to `normalizeProofs`: a javascript
object, a string, or anything else (number, boolean, null, ...). -/
inductive ProofInput where
  | obj (o : JsProofObj)
  | str (s : String)
  | other
deriving DecidableEq, Repr

/-- A normalized proof: an extracted or passed-through proof string, or a
passed-through already-parsed object. -/
inductive NormalizedProof where
  | nstr (s : String)
  | nobj (o : JsProofObj)
deriving DecidableEq, Repr

/-- The single error message thrown for an unrecognized element of the
proofs array (src/lib/utils/proofs.js line 206). -/
def invalidElementMsg : String :=
  "proofs arg Array has elements that are not Objects or Strings"

/-- Classification of one element by `normalizeProofs`
(src/lib/utils/proofs.js lines 195-208): wrapper objects with a string
`proof` field give up that string, objects whose `type` is Chainpoint pass
through, strings accepted by the external validator collaborator's `isJSON`
or `isBase64` pass through, and anything else throws. -/
def normalizeOne (isJSON isBase64 : String → Bool) :
    ProofInput → Except String NormalizedProof
  | .obj o =>
      match o.proofField with
      | some (.strVal s) => .ok (.nstr s)
      | _ =>
          if o.typeField = some "Chainpoint" then .ok (.nobj o)
          else .error invalidElementMsg
  | .str s =>
      if isJSON s || isBase64 s then .ok (.nstr s)
      else .error invalidElementMsg
  | .other => .error invalidElementMsg

/-- Function normalizeProofs (src/lib/utils/proofs.js lines 188-209). -/
def normalizeProofs (isJSON isBase64 : String → Bool) (proofs : List ProofInput) :
    Except String (List NormalizedProof) :=
  if proofs = [] then .error "proofs arg must be a non-empty Array"
  else mapExcept (normalizeOne isJSON isBase64) proofs

/-- Predicate for the spec's (a)/(b)/(c) classification of acceptable
normalizer inputs: a wrapper object with a string proof field, an object
whose type discriminator is Chainpoint, or a string passing the JSON or
base64 validators. -/
def matchesKnownFormat (isJSON isBase64 : String → Bool) : ProofInput → Bool
  | .obj o =>
      (match o.proofField with
        | some (.strVal _) => true
        | _ => false) || (o.typeField == some "Chainpoint")
  | .str s => isJSON s || isBase64 s
  | .other => false

/-- Function isHex from src/lib/utils/helpers.js lines 13-17: at least two
characters, all hexadecimal digits (either case), and even length. -/
def isHex (s : String) : Bool :=
  decide (2 ≤ s.length) &&
    s.toList.all (fun c =>
      c.isDigit || ('a' ≤ c && c ≤ 'f') || ('A' ≤ c && c ≤ 'F')) &&
    s.length % 2 == 0

/-- Function parseProofs (src/lib/utils/proofs.js lines 61-83): argument
validation plus per-element format dispatch; the decoding itself is
delegated to the external chainpoint-parse collaborator `parse`. -/
def parseProofs (parse : NormalizedProof → Except String Proof)
    (isJSON isBase64 : String → Bool) (proofs : List NormalizedProof) :
    Except String (List Proof) :=
  if proofs = [] then .error "proofs arg must be a non-empty Array"
  else
    mapExcept
      (fun pf =>
        match pf with
        | .nobj o => parse (.nobj o)
        | .nstr s =>
            if isJSON s then parse (.nstr s)
            else if isBase64 s || isHex s then parse (.nstr s)
            else .error "unknown proof format")
      proofs

/-- Copy of the proof-level identity fields onto one branch-anchor record,
as done per record inside `flattenProofs` (src/lib/utils/proofs.js lines
101-112). -/
def attachProofFields (p : Proof) (a : BranchAnchor) : FlatProofAnchor :=
  { hash := p.hash
    hash_id_node := p.hash_id_node
    hash_id_core := p.hash_id_core
    hash_submitted_node_at := p.hash_submitted_node_at
    hash_submitted_core_at := p.hash_submitted_core_at
    branch := a.branch
    uri := a.uri
    type := a.type
    anchor_id := a.anchor_id
    expected_value := a.expected_value }

/-- Loop body of `flattenProofs`: records of each proof in input order, a
missing `branches` field flattening to nothing. -/
def flattenProofsLoop : List Proof → List FlatProofAnchor
  | [] => []
  | p :: rest =>
      (flattenProofBranches (p.branches.getD [])).map (attachProofFields p) ++
        flattenProofsLoop rest

/-- Function flattenProofs (src/lib/utils/proofs.js lines 92-117). -/
def flattenProofs : List Proof → Except String (List FlatProofAnchor)
  | [] => .error "parsedProofs arg must be a non-empty Array"
  | p :: rest => .ok (flattenProofsLoop (p :: rest))

/-- Function evaluateProofs (src/lib/evaluate.js lines 19-25): the pure
normalize, parse, flatten pipeline. -/
def evaluateProofs (parse : NormalizedProof → Except String Proof)
    (isJSON isBase64 : String → Bool) (proofs : List ProofInput) :
    Except String (List FlatProofAnchor) :=
  match normalizeProofs isJSON isBase64 proofs with
  | .error e => .error e
  | .ok normalizedProofs =>
      match parseProofs parse isJSON isBase64 normalizedProofs with
      | .error e => .error e
      | .ok parsedProofs => flattenProofs parsedProofs

/-- Value of one field of a result object handed back to the caller of
`verifyProofs`: a string, a boolean, null, or undefined. -/
inductive JsVal where
  | str (s : String)
  | bool (b : Bool)
  | null
  | undefinedVal
deriving DecidableEq, Repr

/-- Embedding of a possibly absent string into a field value, absence being
undefined. -/
def JsVal.ofOpt : Option String → JsVal
  | some s => .str s
  | none => .undefinedVal

/-- Split of a character list at every underscore. -/
def splitUnderscore : List Char → List (List Char)
  | [] => [[]]
  | '_' :: cs => [] :: splitUnderscore cs
  | c :: cs =>
      match splitUnderscore cs with
      | [] => [[c]]
      | w :: ws => (c :: w) :: ws

/-- Capitalization of one word, as lodash camelCase does to every word
after the first. -/
def capitalizeWord : List Char → List Char
  | [] => []
  | c :: cs => c.toUpper :: cs

/-- Behaviour of lodash camelCase on the snake_case ascii keys occurring in
the flattened records: split on underscores, lowercase the first word,
capitalize the following words. -/
def camelCase (s : String) : String :=
  match (splitUnderscore s.toList).filter (fun w => w ≠ []) with
  | [] => ""
  | w :: ws =>
      String.mk (w.map Char.toLower ++
        (ws.map (fun x => capitalizeWord (x.map Char.toLower))).flatten)

/-- Key/value list of the javascript object literal built for one flattened
record by `flattenProofs` (src/lib/utils/proofs.js lines 101-111), in the
source's key-insertion order. -/
def flatProofKeys (r : FlatProofAnchor) : List (String × JsVal) :=
  [("hash", .str r.hash),
   ("hash_id_node", .str r.hash_id_node),
   ("hash_id_core", .str r.hash_id_core),
   ("hash_submitted_node_at", .str r.hash_submitted_node_at),
   ("hash_submitted_core_at", .str r.hash_submitted_core_at),
   ("branch", JsVal.ofOpt r.branch),
   ("uri", JsVal.ofOpt r.uri),
   ("type", .str r.type),
   ("anchor_id", .str r.anchor_id),
   ("expected_value", .str r.expected_value)]

/-- Characters following the first scheme separator of a uri, when there is
one. -/
def dropThroughSchemeSep : List Char → Option (List Char)
  | [] => none
  | ':' :: '/' :: '/' :: rest => some rest
  | _ :: cs => dropThroughSchemeSep cs

/-- Path component of node's legacy url.parse (pathname plus query) for the
uri strings carried by anchor records: everything from the first slash after
the scheme-and-host part on; a scheme-less string is all path, and a uri
with no slash after its host has a null path, which a javascript string
concatenation renders as the text null. -/
def urlParsePath (s : String) : String :=
  match dropThroughSchemeSep s.toList with
  | none => s
  | some rest =>
      match rest.dropWhile (fun c => c ≠ '/') with
      | [] => "null"
      | cs => String.mk cs

/-- Rewriting of one record by the map at src/lib/verify.js lines 49-53:
the uri is repointed at the chosen node, keeping only its original path
component; every other field is kept. -/
def rewriteOne (node : String) (r : FlatProofAnchor) : FlatProofAnchor :=
  { r with uri := r.uri.map (fun u => node ++ urlParsePath u) }

/-- Uri-rewriting pass of `verifyProofs` over all evaluated records
(`singleNodeFlatProofs`, src/lib/verify.js lines 49-53).  Legacy url.parse
throws a TypeError when the record carries no uri string. -/
def rewriteUris (node : String) (records : List FlatProofAnchor) :
    Except String (List FlatProofAnchor) :=
  mapExcept
    (fun r =>
      match r.uri with
      | none => .error "TypeError: url must be a string"
      | some _ => .ok (rewriteOne node r))
    records

/-- Dedup keeping first occurrences, the behaviour of lodash uniqWith with
structural equality and of lodash uniq. -/
def jsUniqAux {α : Type} [DecidableEq α] (seen : List α) : List α → List α
  | [] => []
  | x :: xs =>
      if x ∈ seen then jsUniqAux seen xs else x :: jsUniqAux (x :: seen) xs

/-- Dedup of a whole list, keeping first occurrences. -/
def jsUniq {α : Type} [DecidableEq α] (l : List α) : List α :=
  jsUniqAux [] l

/-- The hashesFound table (src/lib/verify.js lines 91-95): one key per
issued GET option in order, mapping the requested uri to the positional
entry of the flattened retrieval bodies; a missing positional entry is
undefined. -/
def buildHashesFound (uris : List (Option String)) (body : List (Option String)) :
    List (Option String × Option String) :=
  uris.enum.map (fun p => (p.2, (body.get? p.1).getD none))

/-- Javascript property read on the hashesFound object: the stored value,
or undefined for a missing key. -/
def jsLookup (hashesFound : List (Option String × Option String))
    (k : Option String) : Option String :=
  match hashesFound.find? (fun p => p.1 == k) with
  | some p => p.2
  | none => none

/-- One result record of `verifyProofs` (src/lib/verify.js lines 100-114):
the flattened record gains `verified` (strict equality of its
expected_value against the value retrieved for its uri) and `verified_at`
(the current timestamp on success, null otherwise), and all keys are
camel-cased by mapKeys. -/
def verifyRecord (hashesFound : List (Option String × Option String))
    (now : String) (r : FlatProofAnchor) : List (String × JsVal) :=
  let retrieved := jsLookup hashesFound r.uri
  let verified := retrieved == some r.expected_value
  (flatProofKeys r ++
      [("verified", JsVal.bool verified),
       ("verified_at", if verified then JsVal.str now else JsVal.null)]).map
    (fun kv => (camelCase kv.1, kv.2))

/-- Deduplicated, uri-rewritten records that `verifyProofs` evaluates
(`flatProofs`, src/lib/verify.js lines 49-55). -/
def processedRecords (node : String) (evaluated : List FlatProofAnchor) :
    Except String (List FlatProofAnchor) :=
  match rewriteUris node evaluated with
  | .error e => .error e
  | .ok singleNodeFlatProofs => .ok (jsUniq singleNodeFlatProofs)

/-- The hashesFound table built by `verifyProofs` for a given processed
record list and retrieval outcome. -/
def hashesFoundFor (flatProofs : List FlatProofAnchor)
    (body : List (Option String)) : List (Option String × Option String) :=
  buildHashesFound (jsUniq (flatProofs.map (fun r => r.uri))) body

/-- Retrieval-and-comparison stage of `verifyProofs` (src/lib/verify.js
lines 48-116), after the node is chosen and the records evaluated: rewrite
every uri onto the node, dedupe, key the flattened retrieval bodies `body`
(external network input, positionally aligned with the distinct uris) by
uri, reject when the table is empty, and otherwise compare each record.
The runtime is node, where `window` is undefined, so `isSecureOrigin()` is
false and each GET uri is the anchor uri itself. -/
def verifyCore (node : String) (evaluated : List FlatProofAnchor)
    (body : List (Option String)) (now : String) :
    Except String (List (List (String × JsVal))) :=
  match processedRecords node evaluated with
  | .error e => .error e
  | .ok flatProofs =>
      let hashesFound := hashesFoundFor flatProofs body
      if hashesFound.isEmpty then .error "No hashes were found."
      else .ok (flatProofs.map (verifyRecord hashesFound now))

/-- lodash isEmpty on the optional uri argument: undefined and the empty
string are both empty. -/
def jsIsEmptyStr : Option String → Bool
  | none => true
  | some s => s == ""

/-- Node selection of `verifyProofs` (src/lib/verify.js lines 37-46): an
empty uri argument falls back to discovery (getNodes, an external network
collaborator whose single returned node is `discoveredNode`); otherwise the
argument must pass isValidNodeURI, which is built on the external validator
library and therefore passed in abstractly. -/
def resolveNode (isValidNodeURI : String → Bool) (uri : Option String)
    (discoveredNode : String) : Except String String :=
  if jsIsEmptyStr uri then .ok discoveredNode
  else
    match uri with
    | some u =>
        if isValidNodeURI u then .ok u
        else .error ("uri arg contains invalid Node URI : " ++ u)
    | none => .ok discoveredNode

/-- Function verifyProofs (src/lib/verify.js lines 31-117): evaluate the
proofs, resolve a single node, then run the retrieval-and-comparison
stage. -/
def verifyProofs (parse : NormalizedProof → Except String Proof)
    (isJSON isBase64 isValidNodeURI : String → Bool)
    (proofs : List ProofInput) (uri : Option String) (discoveredNode : String)
    (body : List (Option String)) (now : String) :
    Except String (List (List (String × JsVal))) :=
  match evaluateProofs parse isJSON isBase64 proofs with
  | .error e => .error e
  | .ok evaluatedProofs =>
      match resolveNode isValidNodeURI uri discoveredNode with
      | .error e => .error e
      | .ok node => verifyCore node evaluatedProofs body now

/-- Key list of the records built by `flattenProofs`, before any casing
conversion. -/
def snakeCaseKeys : List String :=
  ["hash", "hash_id_node", "hash_id_core", "hash_submitted_node_at",
   "hash_submitted_core_at", "branch", "uri", "type", "anchor_id",
   "expected_value"]

/-- Key list of the records returned by `verifyProofs`, after camel-casing
and the addition of the verification fields. -/
def camelCaseKeys : List String :=
  ["hash", "hashIdNode", "hashIdCore", "hashSubmittedNodeAt",
   "hashSubmittedCoreAt", "branch", "uri", "type", "anchorId",
   "expectedValue", "verified", "verifiedAt"]

/-- Concrete sample values exercising the definitions: a calendar anchor. -/
def calAnchor : Anchor :=
  { type := "cal"
    anchor_id := "999"
    expected_value := "abc123"
    uris := ["http://10.0.0.1/calendar/999/hash"] }

/-- Sample branch holding the calendar anchor. -/
def calBranch : Branch :=
  .mk (some "cal_anchor_branch") (some [calAnchor]) none none

/-- Sample parsed proof with one branch and one anchor. -/
def sampleProof : Proof :=
  { hash := "deadbeef"
    hash_id_node := "node-id-1"
    hash_id_core := "core-id-1"
    hash_submitted_node_at := "t1"
    hash_submitted_core_at := "t2"
    branches := some [calBranch] }

/-- Sample branch whose anchors field is absent. -/
def anchorlessBranch : Branch :=
  .mk (some "cal_anchor_branch") none none none

/-- Sample parsed proof whose only branch has no anchors field. -/
def anchorlessProof : Proof :=
  { sampleProof with hash_id_node := "node-id-2", branches := some [anchorlessBranch] }

/-- Sample parsed proof with a top-level branch whose present sub-branch
list contains no branch labeled btc_anchor_branch. -/
def btcUnlabeledProof : Proof :=
  { sampleProof with
    hash_id_node := "node-id-3"
    branches := some [Branch.mk none none (some [calBranch]) none] }

/-- Sample flattened record, as evaluated from `sampleProof`. -/
def sampleFlatRecord : FlatProofAnchor :=
  { hash := "deadbeef"
    hash_id_node := "node-id-1"
    hash_id_core := "core-id-1"
    hash_submitted_node_at := "t1"
    hash_submitted_core_at := "t2"
    branch := some "cal_anchor_branch"
    uri := some "http://10.0.0.1/calendar/999/hash"
    type := "cal"
    anchor_id := "999"
    expected_value := "abc123" }

/-- Constantly false string check, a concrete stand-in for the external
validators. -/
def falseCheck : String → Bool := fun _ => false

/-- Constantly true string check, a concrete stand-in for the external
validators. -/
def trueCheck : String → Bool := fun _ => true

/-- Concrete stand-in for the external chainpoint-parse collaborator,
decoding every input to `sampleProof`. -/
def stubParse : NormalizedProof → Except String Proof := fun _ => .ok sampleProof

/-- Sample flattened record after uri rewriting onto the trusted node
http://2.2.2.2. -/
def rewrittenFlatRecord : FlatProofAnchor :=
  { sampleFlatRecord with uri := some "http://2.2.2.2/calendar/999/hash" }

/-- Keyed result record for the sample record when the trusted retrieval
returns its expected value. -/
def verifiedResultRecord : List (String × JsVal) :=
  [("hash", .str "deadbeef"), ("hashIdNode", .str "node-id-1"),
   ("hashIdCore", .str "core-id-1"), ("hashSubmittedNodeAt", .str "t1"),
   ("hashSubmittedCoreAt", .str "t2"), ("branch", .str "cal_anchor_branch"),
   ("uri", .str "http://2.2.2.2/calendar/999/hash"), ("type", .str "cal"),
   ("anchorId", .str "999"), ("expectedValue", .str "abc123"),
   ("verified", .bool true), ("verifiedAt", .str "now1")]

/-- Keyed result record for the sample record when the trusted retrieval
returns an empty text body. -/
def unverifiedResultRecord : List (String × JsVal) :=
  [("hash", .str "deadbeef"), ("hashIdNode", .str "node-id-1"),
   ("hashIdCore", .str "core-id-1"), ("hashSubmittedNodeAt", .str "t1"),
   ("hashSubmittedCoreAt", .str "t2"), ("branch", .str "cal_anchor_branch"),
   ("uri", .str "http://2.2.2.2/calendar/999/hash"), ("type", .str "cal"),
   ("anchorId", .str "999"), ("expectedValue", .str "abc123"),
   ("verified", .bool false), ("verifiedAt", JsVal.null)]

/-- The flattening of a branch list has exactly one record per anchor
reachable in the tree. -/
theorem flattenProofBranches_length (bs : List Branch) :
    (flattenProofBranches bs).length = branchListAnchorCount bs := by
  induction bs using flattenProofBranches.induct <;>
    simp [flattenProofBranches, branchListAnchorCount, *]

/-- The loop of `flattenProofs` emits, per proof, one record per reachable
anchor. -/
theorem flattenProofsLoop_length (ps : List Proof) :
    (flattenProofsLoop ps).length =
      (ps.map (fun p => branchListAnchorCount (p.branches.getD []))).sum := by
  induction ps with
  | nil => simp [flattenProofsLoop]
  | cons p rest ih => simp [flattenProofsLoop, flattenProofBranches_length, ih]

/-- C2: for a non-empty sequence of parsed proofs, `flattenProofs` succeeds
and the number of emitted records is the total number of anchors over all
branch nodes reachable from each proof's branches, summed over the whole
tree and over all input proofs; for a single proof this is the anchor count
of its tree. -/
theorem flattenProofs_length_anchor_count (ps : List Proof) (h : ps ≠ []) :
    ∃ out, flattenProofs ps = .ok out ∧
      out.length = (ps.map (fun p => branchListAnchorCount (p.branches.getD []))).sum := by
  match ps, h with
  | p :: rest, _ => exact ⟨_, rfl, flattenProofsLoop_length (p :: rest)⟩

/-- C2 witness: the count invariant evaluated on the one-anchor sample
proof. -/
theorem flattenProofs_length_anchor_count_witness :
    [sampleProof] ≠ [] ∧
      ∃ out, flattenProofs [sampleProof] = .ok out ∧
        out.length =
          ([sampleProof].map (fun p => branchListAnchorCount (p.branches.getD []))).sum :=
  ⟨List.cons_ne_nil _ _,
    flattenProofs_length_anchor_count [sampleProof] (List.cons_ne_nil _ _)⟩

/-- Pre-order work-list traversal of a forest concatenation splits into the
traversals of the two forests. -/
theorem preorderWorklist_append (l₁ l₂ : List Branch) :
    preorderWorklist (l₁ ++ l₂) = preorderWorklist l₁ ++ preorderWorklist l₂ := by
  induction l₁ using preorderWorklist.induct generalizing l₂ with
  | case1 => simp [preorderWorklist]
  | case2 b rest ih =>
      simp only [List.cons_append, preorderWorklist]
      rw [← List.append_assoc (b.branches.getD []) rest l₂, ih, List.append_assoc]

/-- The source's recursive flattening coincides with the explicit work-list
pre-order traversal. -/
theorem flattenProofBranches_eq_preorderWorklist (bs : List Branch) :
    flattenProofBranches bs = preorderWorklist bs := by
  induction bs using flattenProofBranches.induct with
  | case1 => simp [flattenProofBranches, preorderWorklist]
  | case2 label anchors rtx rest ih =>
      simp [flattenProofBranches, preorderWorklist, ih, Branch.label, Branch.anchors,
        Branch.branches]
  | case3 label anchors bs rtx rest ih₁ ih₂ =>
      simp [flattenProofBranches, preorderWorklist, ih₁, ih₂, Branch.label, Branch.anchors,
        Branch.branches, preorderWorklist_append]

/-- Per-branch decomposition of the flattening: the output is the
concatenation, over the branches in their listed order, of each branch's own
anchor records followed by the records of its descendant branches. -/
theorem flattenProofBranches_flatten_eq (bs : List Branch) :
    flattenProofBranches bs =
      (bs.map (fun b =>
        ((b.anchors.getD []).map (branchAnchorRecord b.label)) ++
          flattenProofBranches (b.branches.getD []))).flatten := by
  induction bs using flattenProofBranches.induct with
  | case1 => simp [flattenProofBranches]
  | case2 label anchors rtx rest ih =>
      simp [flattenProofBranches, ih, Branch.label, Branch.anchors, Branch.branches]
  | case3 label anchors bs rtx rest ih₁ ih₂ =>
      simp [flattenProofBranches, ih₂, Branch.label, Branch.anchors, Branch.branches]

/-- The loop of `flattenProofs` concatenates the per-proof record lists in
input order. -/
theorem flattenProofsLoop_eq_flatten (ps : List Proof) :
    flattenProofsLoop ps =
      (ps.map (fun p =>
        (flattenProofBranches (p.branches.getD [])).map (attachProofFields p))).flatten := by
  induction ps with
  | nil => rfl
  | cons p rest ih => simp [flattenProofsLoop, ih]

/-- C3: flattening is pre-order.  The record list of a branch forest equals
its explicit work-list pre-order traversal, it decomposes branch by branch
into each branch's own anchor records (in their listed order) followed by
all records of that branch's descendants, with sibling branches' groups in
their listed order, and across proofs `flattenProofs` concatenates the
per-proof record lists in input order. -/
theorem flattenProofs_preorder (bs : List Branch) (ps : List Proof) (h : ps ≠ []) :
    flattenProofBranches bs = preorderWorklist bs ∧
    flattenProofBranches bs =
      (bs.map (fun b =>
        ((b.anchors.getD []).map (branchAnchorRecord b.label)) ++
          flattenProofBranches (b.branches.getD []))).flatten ∧
    flattenProofs ps = .ok ((ps.map (fun p =>
      (flattenProofBranches (p.branches.getD [])).map (attachProofFields p))).flatten) := by
  refine ⟨flattenProofBranches_eq_preorderWorklist bs,
    flattenProofBranches_flatten_eq bs, ?_⟩
  match ps, h with
  | p :: rest, _ =>
      rw [show flattenProofs (p :: rest) = .ok (flattenProofsLoop (p :: rest)) from rfl,
        flattenProofsLoop_eq_flatten]

/-- C3 witness: the pre-order properties evaluated on the sample proof. -/
theorem flattenProofs_preorder_witness :
    [sampleProof] ≠ [] ∧
      (flattenProofBranches [calBranch] = preorderWorklist [calBranch] ∧
       flattenProofBranches [calBranch] =
         ([calBranch].map (fun b =>
           ((b.anchors.getD []).map (branchAnchorRecord b.label)) ++
             flattenProofBranches (b.branches.getD []))).flatten ∧
       flattenProofs [sampleProof] = .ok (([sampleProof].map (fun p =>
         (flattenProofBranches (p.branches.getD [])).map (attachProofFields p))).flatten)) :=
  ⟨List.cons_ne_nil _ _,
    flattenProofs_preorder [calBranch] [sampleProof] (List.cons_ne_nil _ _)⟩

/-- C9 (amended): `flattenProofs` rejects an empty argument with the
invalid-argument error, while a branch whose `anchors` field is missing is
silently skipped during traversal: it contributes no records and raises no
error (lodash forEach over undefined iterates nothing). -/
theorem flattenProofs_invalid_arg_and_skip_missing_anchors (b : Branch)
    (rest : List Branch) (h : b.anchors = none) :
    flattenProofs ([] : List Proof) = .error "parsedProofs arg must be a non-empty Array" ∧
    flattenProofBranches (b :: rest) =
      flattenProofBranches (b.branches.getD []) ++ flattenProofBranches rest := by
  refine ⟨rfl, ?_⟩
  rcases b with ⟨label, anchors, bb, rtx⟩
  simp only [Branch.anchors] at h
  subst h
  cases bb <;> simp [flattenProofBranches, Branch.branches]

/-- C9 witness: the amended behaviour evaluated on a branch with a missing
anchors field. -/
theorem flattenProofs_invalid_arg_and_skip_missing_anchors_witness :
    anchorlessBranch.anchors = none ∧
      (flattenProofs ([] : List Proof) =
          .error "parsedProofs arg must be a non-empty Array" ∧
       flattenProofBranches [anchorlessBranch] =
         flattenProofBranches (anchorlessBranch.branches.getD []) ++
           flattenProofBranches []) :=
  ⟨rfl, flattenProofs_invalid_arg_and_skip_missing_anchors anchorlessBranch [] rfl⟩

/-- C9 counterexample: a proof whose only branch misses its `anchors` field
flattens successfully to the empty record list; no MalformedProof error is
raised. -/
theorem flattenProofs_missing_anchors_no_error :
    flattenProofs [anchorlessProof] = .ok [] := by
  simp [flattenProofs, flattenProofsLoop, anchorlessProof, sampleProof, anchorlessBranch,
    flattenProofBranches]

/-- A fail-fast map whose body succeeds everywhere is the plain map. -/
theorem mapExcept_ok_of_forall {α β : Type} (f : α → Except String β) (g : α → β)
    (l : List α) (h : ∀ x ∈ l, f x = .ok (g x)) :
    mapExcept f l = .ok (l.map g) := by
  induction l with
  | nil => rfl
  | cons x xs ih =>
      simp [mapExcept, h x (by simp), ih (fun y hy => h y (by simp [hy]))]

/-- The loop of the BTC extractor leaves the accumulator record unchanged
when no top-level branch carries a `branches` field. -/
theorem foldExcept_btc_no_subbranches (acc : BtcRec) (bs : List Branch)
    (h : ∀ b ∈ bs, b.branches = none) :
    foldExcept btcBranchStep acc bs = .ok acc := by
  induction bs generalizing acc with
  | nil => rfl
  | cons b rest ih =>
      have hb : b.branches = none := h b (by simp)
      simp [foldExcept, btcBranchStep, hb, ih acc (fun x hx => h x (by simp [hx]))]

/-- C4 (amended): for proofs none of whose top-level branches carries a
`branches` field, `flattenBtcBranches` succeeds and emits exactly one record
per input proof, in input order, holding only that proof's hash_id_node with
the btc fields absent.  (As the companion counterexample shows, the function
is not total: a present sub-branch list with no branch labeled
btc_anchor_branch makes the whole call throw.) -/
theorem flattenBtcBranches_degrades (proofs : List Proof)
    (h : ∀ p ∈ proofs, ∀ b ∈ p.branches.getD [], b.branches = none) :
    flattenBtcBranches proofs =
      .ok (proofs.map (fun p => { hash_id_node := p.hash_id_node })) := by
  apply mapExcept_ok_of_forall
  intro p hp
  unfold flattenBtcBranchesOne
  cases hb : p.branches with
  | none => rfl
  | some bs =>
      exact foldExcept_btc_no_subbranches _ bs
        (fun b hbmem => h p hp b (by simp [hb, hbmem]))

/-- C4 witness: the degraded record evaluated on a proof whose only branch
has no sub-branch list. -/
theorem flattenBtcBranches_degrades_witness :
    (∀ p ∈ [anchorlessProof], ∀ b ∈ p.branches.getD [], b.branches = none) ∧
      flattenBtcBranches [anchorlessProof] =
        .ok ([anchorlessProof].map (fun p => { hash_id_node := p.hash_id_node })) :=
  have hdeg : ∀ p ∈ [anchorlessProof], ∀ b ∈ p.branches.getD [], b.branches = none := by
    simp [List.forall_mem_cons, anchorlessProof, sampleProof, anchorlessBranch,
      Branch.branches]
  ⟨hdeg, flattenBtcBranches_degrades [anchorlessProof] hdeg⟩

/-- C4 counterexample: a proof with a top-level branch whose present
sub-branch list has no branch labeled btc_anchor_branch makes
`flattenBtcBranches` throw (the source dereferences the find result without
a guard) instead of emitting a partial record. -/
theorem flattenBtcBranches_throws_on_unlabeled_subbranches :
    flattenBtcBranches [btcUnlabeledProof] =
      .error "TypeError: cannot read rawTx of undefined" := by decide

/-- Elements rejected by the normalizer's classification throw the one
fixed invalid-element error. -/
theorem normalizeOne_error_of_not_matches (isJSON isBase64 : String → Bool)
    (x : ProofInput) (h : matchesKnownFormat isJSON isBase64 x = false) :
    normalizeOne isJSON isBase64 x = .error invalidElementMsg := by
  cases x with
  | obj o =>
      simp only [matchesKnownFormat, Bool.or_eq_false_iff] at h
      obtain ⟨h1, h2⟩ := h
      cases hp : o.proofField with
      | none => simp [normalizeOne, hp, beq_eq_false_iff_ne.mp h2]
      | some v =>
          cases v with
          | strVal s => rw [hp] at h1; cases h1
          | nonStrVal => simp [normalizeOne, hp, beq_eq_false_iff_ne.mp h2]
  | str s =>
      simp only [matchesKnownFormat] at h
      simp [normalizeOne, h]
  | other => rfl

/-- Whatever error the normalizer's classification throws carries the one
fixed invalid-element message. -/
theorem normalizeOne_error_msg (isJSON isBase64 : String → Bool) (x : ProofInput)
    (e : String) (h : normalizeOne isJSON isBase64 x = .error e) :
    e = invalidElementMsg := by
  cases x with
  | obj o =>
      cases hp : o.proofField with
      | some v =>
          cases v with
          | strVal s => simp [normalizeOne, hp] at h
          | nonStrVal =>
              simp only [normalizeOne, hp] at h
              split at h
              · cases h
              · exact (Except.error.inj h).symm
      | none =>
          simp only [normalizeOne, hp] at h
          split at h
          · cases h
          · exact (Except.error.inj h).symm
  | str s =>
      simp only [normalizeOne] at h
      split at h
      · cases h
      · exact (Except.error.inj h).symm
  | other =>
      simp only [normalizeOne] at h
      exact (Except.error.inj h).symm

/-- A list holding any unclassifiable element maps, fail-fast, to the fixed
invalid-element error. -/
theorem mapExcept_normalize_error (isJSON isBase64 : String → Bool)
    (l : List ProofInput) (x : ProofInput) (hx : x ∈ l)
    (hbad : matchesKnownFormat isJSON isBase64 x = false) :
    mapExcept (normalizeOne isJSON isBase64) l = .error invalidElementMsg := by
  induction l with
  | nil => cases hx
  | cons y ys ih =>
      rcases List.mem_cons.mp hx with rfl | hmem
      · simp [mapExcept, normalizeOne_error_of_not_matches _ _ _ hbad]
      · cases hy : normalizeOne isJSON isBase64 y with
        | error e =>
            have he := normalizeOne_error_msg _ _ _ _ hy
            simp [mapExcept, hy, he]
        | ok v => simp [mapExcept, hy, ih hmem]

/-- C6 (amended): whenever the input sequence contains an element that is
neither a wrapper object with a string proof field, nor an object whose type
discriminator is Chainpoint, nor a string accepted by the JSON or base64
validators, `normalizeProofs` fails the whole call, with no partial output
and no dropped element; the error message, however, is the one fixed string
and does not identify the index of the offending element. -/
theorem normalizeProofs_rejects_unknown_elements (isJSON isBase64 : String → Bool)
    (proofs : List ProofInput)
    (h : ∃ x ∈ proofs, matchesKnownFormat isJSON isBase64 x = false) :
    normalizeProofs isJSON isBase64 proofs = .error invalidElementMsg := by
  obtain ⟨x, hx, hbad⟩ := h
  have hne : proofs ≠ [] := by rintro rfl; cases hx
  unfold normalizeProofs
  rw [if_neg hne]
  exact mapExcept_normalize_error _ _ _ x hx hbad

/-- C6 witness: the whole-call failure evaluated on an array holding one
unrecognizable object. -/
theorem normalizeProofs_rejects_unknown_elements_witness :
    (∃ x ∈ [ProofInput.obj ⟨none, none⟩],
        matchesKnownFormat falseCheck falseCheck x = false) ∧
      normalizeProofs falseCheck falseCheck [ProofInput.obj ⟨none, none⟩] =
        .error invalidElementMsg :=
  ⟨⟨ProofInput.obj ⟨none, none⟩, by simp, by decide⟩,
    normalizeProofs_rejects_unknown_elements falseCheck falseCheck _
      ⟨ProofInput.obj ⟨none, none⟩, by simp, by decide⟩⟩

/-- C6 counterexample: the rejection message is the same fixed string when
the offending element sits at index 0 and when it sits at index 1 (behind a
valid wrapper), so the message cannot identify the offending index, contrary
to the claim. -/
theorem normalizeProofs_error_message_has_no_index :
    normalizeProofs falseCheck falseCheck [.obj ⟨none, none⟩] =
        .error invalidElementMsg ∧
      normalizeProofs falseCheck falseCheck
          [.obj ⟨some (.strVal "p"), none⟩, .obj ⟨none, none⟩] =
        .error invalidElementMsg :=
  ⟨by decide, by decide⟩

/-- Uri rewriting over records that all carry a uri string is the total
per-record rewrite. -/
theorem rewriteUris_eq_map (node : String) (records : List FlatProofAnchor)
    (h : ∀ r ∈ records, r.uri.isSome) :
    rewriteUris node records = .ok (records.map (rewriteOne node)) := by
  apply mapExcept_ok_of_forall
  intro r hr
  cases hu : r.uri with
  | none => exact absurd (h r hr) (by simp [hu])
  | some u => simp [hu]

/-- C7: before any retrieval, `verifyProofs` rewrites each evaluated
record's uri to the chosen node concatenated with the record's original uri
path component, and the rewrite changes no other field: hash, hash_id_node,
hash_id_core, both submission timestamps, branch, type, anchor_id and
expected_value all stay as they were. -/
theorem rewriteUris_only_uri (node : String) (records : List FlatProofAnchor)
    (h : ∀ r ∈ records, r.uri.isSome) :
    ∃ out, rewriteUris node records = .ok out ∧ out.length = records.length ∧
      ∀ (i : Nat) (r : FlatProofAnchor), records[i]? = some r →
        ∀ (u : String), r.uri = some u →
        out[i]? = some
          { hash := r.hash
            hash_id_node := r.hash_id_node
            hash_id_core := r.hash_id_core
            hash_submitted_node_at := r.hash_submitted_node_at
            hash_submitted_core_at := r.hash_submitted_core_at
            branch := r.branch
            uri := some (node ++ urlParsePath u)
            type := r.type
            anchor_id := r.anchor_id
            expected_value := r.expected_value } := by
  refine ⟨records.map (rewriteOne node), rewriteUris_eq_map node records h, by simp, ?_⟩
  intro i r hr u hu
  rw [List.getElem?_map, hr]
  simp [rewriteOne, hu]

/-- C7 witness: the rewrite evaluated on the sample record and the node
http://2.2.2.2. -/
theorem rewriteUris_only_uri_witness :
    (∀ r ∈ [sampleFlatRecord], r.uri.isSome) ∧
      ∃ out, rewriteUris "http://2.2.2.2" [sampleFlatRecord] = .ok out ∧
        out.length = [sampleFlatRecord].length ∧
        ∀ (i : Nat) (r : FlatProofAnchor), [sampleFlatRecord][i]? = some r →
          ∀ (u : String), r.uri = some u →
          out[i]? = some
            { hash := r.hash
              hash_id_node := r.hash_id_node
              hash_id_core := r.hash_id_core
              hash_submitted_node_at := r.hash_submitted_node_at
              hash_submitted_core_at := r.hash_submitted_core_at
              branch := r.branch
              uri := some ("http://2.2.2.2" ++ urlParsePath u)
              type := r.type
              anchor_id := r.anchor_id
              expected_value := r.expected_value } :=
  ⟨by decide, rewriteUris_only_uri "http://2.2.2.2" [sampleFlatRecord] (by decide)⟩

/-- A successful verification run determines its processed records, and its
results are exactly the per-record verdicts over the hashesFound table. -/
theorem verifyCore_ok_eq (node : String) (evaluated : List FlatProofAnchor)
    (body : List (Option String)) (now : String)
    (results : List (List (String × JsVal)))
    (h : verifyCore node evaluated body now = .ok results) :
    ∃ flatProofs, processedRecords node evaluated = .ok flatProofs ∧
      results = flatProofs.map (verifyRecord (hashesFoundFor flatProofs body) now) := by
  unfold verifyCore at h
  cases hp : processedRecords node evaluated with
  | error e => rw [hp] at h; cases h
  | ok flatProofs =>
      rw [hp] at h
      dsimp only at h
      split at h
      · cases h
      · exact ⟨flatProofs, rfl, (Except.ok.inj h).symm⟩

/-- The verified flag of a result record, read back through its camel-cased
key. -/
theorem verifyRecord_lookup_verified
    (hashesFound : List (Option String × Option String)) (now : String)
    (r : FlatProofAnchor) :
    List.lookup "verified" (verifyRecord hashesFound now r) =
      some (.bool (jsLookup hashesFound r.uri == some r.expected_value)) := rfl

/-- The verified_at timestamp of a result record, read back through its
camel-cased key. -/
theorem verifyRecord_lookup_verified_at
    (hashesFound : List (Option String × Option String)) (now : String)
    (r : FlatProofAnchor) :
    List.lookup "verifiedAt" (verifyRecord hashesFound now r) =
      some (if jsLookup hashesFound r.uri == some r.expected_value then JsVal.str now
            else JsVal.null) := rfl

/-- C1: for every flattened record processed by `verifyProofs` and the value
retrieved for that record's rewritten uri, the result record has verified
true and verified_at set to the current timestamp exactly when the record's
expected_value equals the retrieved value, and verified false with
verified_at null in every other case, including when the retrieval stored
any other value, or nothing at all, for that uri. -/
theorem verifyProofs_verified_iff_match (node : String)
    (evaluated : List FlatProofAnchor) (body : List (Option String)) (now : String)
    (flatProofs : List FlatProofAnchor) (results : List (List (String × JsVal)))
    (hp : processedRecords node evaluated = .ok flatProofs)
    (h : verifyCore node evaluated body now = .ok results)
    (i : Nat) (r : FlatProofAnchor) (hr : flatProofs[i]? = some r) :
    results.length = flatProofs.length ∧
    (jsLookup (hashesFoundFor flatProofs body) r.uri = some r.expected_value →
      results[i]?.bind (List.lookup "verified") = some (.bool true) ∧
      results[i]?.bind (List.lookup "verifiedAt") = some (.str now)) ∧
    (jsLookup (hashesFoundFor flatProofs body) r.uri ≠ some r.expected_value →
      results[i]?.bind (List.lookup "verified") = some (.bool false) ∧
      results[i]?.bind (List.lookup "verifiedAt") = some JsVal.null) := by
  obtain ⟨fp2, hp2, hres⟩ := verifyCore_ok_eq node evaluated body now results h
  rw [hp] at hp2
  injection hp2 with hfp
  subst hfp
  subst hres
  refine ⟨by simp, ?_, ?_⟩
  · intro hjs
    have hb : (jsLookup (hashesFoundFor flatProofs body) r.uri ==
        some r.expected_value) = true := beq_iff_eq.mpr hjs
    simp [List.getElem?_map, hr, verifyRecord_lookup_verified,
      verifyRecord_lookup_verified_at, hb]
  · intro hjs
    have hb : (jsLookup (hashesFoundFor flatProofs body) r.uri ==
        some r.expected_value) = false := beq_eq_false_iff_ne.mpr hjs
    simp [List.getElem?_map, hr, verifyRecord_lookup_verified,
      verifyRecord_lookup_verified_at, hb]

/-- C1 witness: the equality comparison evaluated on the sample record with
a trusted retrieval returning exactly its expected value. -/
theorem verifyProofs_verified_iff_match_witness :
    (processedRecords "http://2.2.2.2" [sampleFlatRecord] = .ok [rewrittenFlatRecord] ∧
     verifyCore "http://2.2.2.2" [sampleFlatRecord] [some "abc123"] "now1" =
       .ok [verifiedResultRecord] ∧
     [rewrittenFlatRecord][0]? = some rewrittenFlatRecord) ∧
    ([verifiedResultRecord].length = [rewrittenFlatRecord].length ∧
     (jsLookup (hashesFoundFor [rewrittenFlatRecord] [some "abc123"])
         rewrittenFlatRecord.uri = some rewrittenFlatRecord.expected_value →
       [verifiedResultRecord][0]?.bind (List.lookup "verified") = some (.bool true) ∧
       [verifiedResultRecord][0]?.bind (List.lookup "verifiedAt") = some (.str "now1")) ∧
     (jsLookup (hashesFoundFor [rewrittenFlatRecord] [some "abc123"])
         rewrittenFlatRecord.uri ≠ some rewrittenFlatRecord.expected_value →
       [verifiedResultRecord][0]?.bind (List.lookup "verified") = some (.bool false) ∧
       [verifiedResultRecord][0]?.bind (List.lookup "verifiedAt") = some JsVal.null)) :=
  ⟨⟨by decide, by decide, rfl⟩,
    verifyProofs_verified_iff_match "http://2.2.2.2" [sampleFlatRecord] [some "abc123"]
      "now1" [rewrittenFlatRecord] [verifiedResultRecord] (by decide) (by decide) 0
      rewrittenFlatRecord rfl⟩

/-- C5: the code resolves instead of rejecting.  With one record to check
and a trusted retrieval batch returning only an empty body, hashesFound
keeps one key (holding the empty text), so the empty-table rejection is not
taken: the call resolves with the record marked verified false rather than
failing with the NoHashesFound error, contradicting the repository's own
test that expects the rejection. -/
theorem verifyCore_empty_retrieval_resolves :
    verifyCore "http://2.2.2.2" [sampleFlatRecord] [some ""] "2019-01-01T00:00:00Z" =
        .ok [unverifiedResultRecord] ∧
      verifyCore "http://2.2.2.2" [sampleFlatRecord] [some ""] "2019-01-01T00:00:00Z" ≠
        .error "No hashes were found." :=
  ⟨by decide, by decide⟩

/-- C10: the two public entry points expose different key casings: every
record evaluated by `evaluateProofs` carries the snake_case keys written by
`flattenProofs`, while every record returned by `verifyProofs` has all its
keys camel-cased, with hashIdNode, expectedValue, verifiedAt and friends. -/
theorem record_key_casing (parse : NormalizedProof → Except String Proof)
    (isJSON isBase64 : String → Bool) (ps : List ProofInput)
    (out : List FlatProofAnchor) (node : String)
    (evaluated : List FlatProofAnchor) (body : List (Option String)) (now : String)
    (results : List (List (String × JsVal)))
    (h1 : evaluateProofs parse isJSON isBase64 ps = .ok out)
    (h2 : verifyCore node evaluated body now = .ok results) :
    (∀ r ∈ out, (flatProofKeys r).map Prod.fst = snakeCaseKeys) ∧
    (∀ rec ∈ results, rec.map Prod.fst = camelCaseKeys) := by
  refine ⟨fun r _ => rfl, ?_⟩
  intro rec hrec
  obtain ⟨fp, _, hres⟩ := verifyCore_ok_eq node evaluated body now results h2
  subst hres
  obtain ⟨r, _, rfl⟩ := List.mem_map.mp hrec
  rfl

/-- C10 witness: the key lists evaluated on the sample record through both
entry points. -/
theorem record_key_casing_witness :
    (evaluateProofs stubParse trueCheck falseCheck
        [ProofInput.obj ⟨none, some "Chainpoint"⟩] = .ok [sampleFlatRecord] ∧
     verifyCore "http://2.2.2.2" [sampleFlatRecord] [some "abc123"] "now1" =
        .ok [verifiedResultRecord]) ∧
    ((∀ r ∈ [sampleFlatRecord], (flatProofKeys r).map Prod.fst = snakeCaseKeys) ∧
     (∀ rec ∈ [verifiedResultRecord], rec.map Prod.fst = camelCaseKeys)) :=
  have h1 : evaluateProofs stubParse trueCheck falseCheck
      [ProofInput.obj ⟨none, some "Chainpoint"⟩] = .ok [sampleFlatRecord] := by
    simp [evaluateProofs, normalizeProofs, parseProofs, flattenProofs, flattenProofsLoop,
      flattenProofBranches, mapExcept, normalizeOne, stubParse, sampleProof, calBranch,
      calAnchor, sampleFlatRecord, attachProofFields, branchAnchorRecord, jsTruthyString]
  ⟨⟨h1, by decide⟩,
    record_key_casing stubParse trueCheck falseCheck
      [ProofInput.obj ⟨none, some "Chainpoint"⟩] [sampleFlatRecord] "http://2.2.2.2"
      [sampleFlatRecord] [some "abc123"] "now1" [verifiedResultRecord] h1 (by decide)⟩

end Chainpoint
